import Mathlib

/-!
Verification of the simpmon host-monitoring agent (monitor.py, alarm.py,
config.py of the simpmon package).  The definitions below are a shallow
embedding of the Python source: Python floats are modelled as rationals,
datetimes and timedeltas as integer numbers of time units (microseconds where
the sub-second structure matters), dictionaries as insertion-ordered
association lists, and exceptions as Option / Except results.
-/

namespace Simpmon

/-- Exceedance direction of an alarm rule (config.MonitorAlarmExceedanceType). -/
inductive Exceedance where
  | OVER
  | UNDER
  deriving DecidableEq

/-- One alarm rule (config.MonitorAlarmConfig).  `value` is the threshold,
`count` the number of most recent datapoints that must all breach it,
`reminder_age` the optional reminder interval (a Python timedelta, modelled as
an integer number of time units). -/
structure AlarmConfig where
  name : String
  count : Nat
  value : ℚ
  exceedance : Exceedance
  reminder_age : Option Int
  deriving DecidableEq

/-- The datapoint values examined for one rule.  Monitor._set_alarm_status reads
datapoints[-i-1] for i < count, i.e. the last `count` values (the source keeps
them in a Python set; duplicate values are irrelevant to the `all` checks below,
so the window is kept as the list of the last `count` values).  The first
out-of-range access raises IndexError, caught and turned into a skip; that
happens exactly when `count` exceeds the history length, modelled as `none`. -/
def alarm_window (dps : List ℚ) (count : Nat) : Option (List ℚ) :=
  if count ≤ dps.length then some (dps.drop (dps.length - count)) else none

/-- Monitor._set_alarm_status: a single rule fires iff there are at least
`count` datapoints and the last `count` values are all strictly below (UNDER)
respectively strictly above (OVER) the threshold. -/
def set_alarm_status_rule (dps : List ℚ) (a : AlarmConfig) : Bool :=
  match alarm_window dps a.count with
  | none => false
  | some w =>
    match a.exceedance with
    | .UNDER => w.all (fun p => decide (p < a.value))
    | .OVER => w.all (fun p => decide (a.value < p))

/-- Stable insertion of a rule into a descending-by-threshold list: `a` goes in
front of the first element whose threshold is at most `a.value`, so among equal
thresholds earlier elements stay first.  This is the placement discipline of
Python's stable `sorted(..., key=value, reverse=True)`. -/
def insert_desc (a : AlarmConfig) : List AlarmConfig → List AlarmConfig
  | [] => [a]
  | b :: t => if b.value ≤ a.value then a :: b :: t else b :: insert_desc a t

/-- Stable insertion into an ascending-by-threshold list (Python
`sorted(..., key=value)`). -/
def insert_asc (a : AlarmConfig) : List AlarmConfig → List AlarmConfig
  | [] => [a]
  | b :: t => if a.value ≤ b.value then a :: b :: t else b :: insert_asc a t

/-- Stable descending sort by threshold. -/
def sort_desc : List AlarmConfig → List AlarmConfig
  | [] => []
  | a :: t => insert_desc a (sort_desc t)

/-- Stable ascending sort by threshold. -/
def sort_asc : List AlarmConfig → List AlarmConfig
  | [] => []
  | a :: t => insert_asc a (sort_asc t)

/-- Monitor.__init__: the OVER rules, sorted by threshold descending. -/
def over_alarms (alarms : List AlarmConfig) : List AlarmConfig :=
  sort_desc (alarms.filter (fun a => a.exceedance == .OVER))

/-- Monitor.__init__: the UNDER rules, sorted by threshold ascending. -/
def under_alarms (alarms : List AlarmConfig) : List AlarmConfig :=
  sort_asc (alarms.filter (fun a => a.exceedance == .UNDER))

/-- Monitor.set_alarm_status: scan the OVER list, then the UNDER list, breaking
at the first firing rule; `none` when no rule fires. -/
def set_alarm_status (overs unders : List AlarmConfig) (dps : List ℚ) :
    Option AlarmConfig :=
  match overs.find? (set_alarm_status_rule dps) with
  | some a => some a
  | none => unders.find? (set_alarm_status_rule dps)

/-- The verdict of a Monitor built (Monitor.__init__) from an unsorted
configured alarm list: partition by direction, sort, then scan. -/
def evaluate (alarms : List AlarmConfig) (dps : List ℚ) : Option AlarmConfig :=
  set_alarm_status (over_alarms alarms) (under_alarms alarms) dps

/-- A datapoint (monitor.Point): timestamp and sampled value. -/
structure Point where
  x : Int
  y : ℚ
  deriving DecidableEq

/-- The history cap (monitor.MAX_DATAPOINTS). -/
def MAX_DATAPOINTS : Nat := 100

/-- One tick's history update (Monitor.run): append the new datapoint at the
tail, then pop the oldest entry when over capacity. -/
def run_tick (h : List Point) (p : Point) : List Point :=
  let h2 := h ++ [p]
  if MAX_DATAPOINTS < h2.length then h2.tail else h2

/-- A sequence of ticks (repeated Monitor.run calls), oldest input first. -/
def run_ticks (h : List Point) (ps : List Point) : List Point :=
  ps.foldl run_tick h

/-- Mutable state of DiskWriteRateMonitor: the warned-unavailable flag and the
previously observed (timestamp, byte counter) pair.  Timestamps are in
microseconds (datetime resolution), counters in bytes. -/
structure DWRState where
  warned : Bool
  last : Option (Int × Int)
  deriving DecidableEq

/-- DiskWriteRateMonitor.__init__. -/
def dwr_init : DWRState := ⟨false, none⟩

/-- Microseconds per day, the normalisation modulus of Python timedelta. -/
def MICROS_PER_DAY : Int := 86400000000

/-- The `seconds` attribute of a Python timedelta of `dt` microseconds: the
whole-seconds component after normalising into [0 days, 1 day), NOT the total
elapsed seconds.  Python % and // on ints floor like Int.emod / Int.ediv. -/
def td_seconds (dt : Int) : Int := dt % MICROS_PER_DAY / 1000000

/-- DiskWriteRateMonitor.get_datapoint.  The probe argument is the outcome of
psutil.disk_io_counters for the configured disk: `none` when counters are
unavailable, otherwise the current (time, write_bytes) pair.  The returned
value is `none` exactly when the Python code raises ZeroDivisionError
(difference / interval.seconds with a zero seconds component); otherwise
`some` of the returned float. -/
def dwr_get_datapoint (divider : ℚ) (s : DWRState) (probe : Option (Int × Int)) :
    DWRState × Option ℚ :=
  if s.warned then (s, some 0)
  else
    match probe with
    | none => ({ s with warned := true }, some 0)
    | some (t, c) =>
      match s.last with
      | none => ({ s with last := some (t, c) }, some 0)
      | some (pt, pc) =>
        let secs := td_seconds (t - pt)
        let s2 := { s with last := some (t, c) }
        if secs = 0 then (s2, none)
        else (s2, some (((c - pc : Int) : ℚ) / (secs : ℚ) / divider))

/-- A whole run of the sampler over a list of probes, collecting outputs. -/
def dwr_run (divider : ℚ) (s : DWRState) : List (Option (Int × Int)) →
    DWRState × List (Option ℚ)
  | [] => (s, [])
  | probe :: rest =>
    let (s2, v) := dwr_get_datapoint divider s probe
    let (s3, vs) := dwr_run divider s2 rest
    (s3, v :: vs)

/-- Outcome of one ping3.ping call as observed by PingMonitor._run_ping:
either the call returns (a round-trip time in seconds, or Python None on
timeout), or it raises. -/
inductive PingResult where
  | ok (response : Option ℚ)
  | exn
  deriving DecidableEq

/-- Mutable state of PingMonitor: `lastPing` models self._last_ping, which the
source can set to a number or to Python None (hence Option); `inFlight` models
self._ping_future being non-None. -/
structure PingState where
  lastPing : Option ℚ
  inFlight : Bool
  deriving DecidableEq

/-- PingMonitor.__init__: self._last_ping = -1, no probe in flight. -/
def ping_init : PingState := ⟨some (-1), false⟩

/-- PingMonitor._run_ping completing with `res`.  Note the source first runs
`if response_time is None: self._last_ping = -1` and then unconditionally
`self._last_ping = response_time`, so the -1 assignment on the None path is
dead and None is stored.  On an exception, -1 is stored.  The finally-block
clears the in-flight future. -/
def ping_run_probe (s : PingState) (res : PingResult) : PingState :=
  match res with
  | .ok response =>
    let s1 := if response = none then { s with lastPing := some (-1) } else s
    { s1 with lastPing := response, inFlight := false }
  | .exn => { s with lastPing := some (-1), inFlight := false }

/-- PingMonitor.get_datapoint: start a probe unless one is in flight
(_start_ping), then return self._last_ping * 1000.  When self._last_ping is
Python None the multiplication raises TypeError; that is the `none` result. -/
def ping_get_datapoint (s : PingState) : PingState × Option ℚ :=
  let s2 := if s.inFlight then s else { s with inFlight := true }
  (s2, s.lastPing.map (fun r => r * 1000))

/-- Outcome of the DBus probe inside SystemdMonitor.get_datapoint: either some
DBus call raised dbus.DBusException, or the ActiveState property was read. -/
inductive SystemdProbe where
  | dbusError
  | state (s : String)
  deriving DecidableEq

/-- SystemdMonitor.get_datapoint.  The try-block maps active/inactive/failed to
0/1/2 and raises TypeError on any other state string; the except clause catches
only dbus.DBusException (returning 1), so the TypeError escapes the call —
modelled as `Except.error` carrying the exception message. -/
def systemd_get_datapoint (probe : SystemdProbe) : Except String ℚ :=
  match probe with
  | .dbusError => .ok 1
  | .state s =>
    if s = "active" then .ok 0
    else if s = "inactive" then .ok 1
    else if s = "failed" then .ok 2
    else .error ("Unexpected service state: " ++ s)

/-- The metric kinds accepted by configuration validation (config.MonitorName;
every constructor is a member of the discriminated MonitorConfig union, so a
configuration naming any of them validates). -/
inductive MonitorName where
  | LOAD_AVERAGE
  | DISK_USAGE
  | DISK_WRITE_RATE
  | TEMPERATURE
  | UPTIME
  | SYSTEMD
  | PING
  | PACKAGE_MANAGER
  | HEARTBEAT
  deriving DecidableEq

/-- The .value string of each config.MonitorName member. -/
def MonitorName.value : MonitorName → String
  | .LOAD_AVERAGE => "LOAD_AVERAGE"
  | .DISK_USAGE => "DISK_USAGE"
  | .DISK_WRITE_RATE => "DISK_WRITE_RATE"
  | .TEMPERATURE => "TEMPERATURE"
  | .UPTIME => "UPTIME"
  | .SYSTEMD => "SYSTEMD"
  | .PING => "PING"
  | .PACKAGE_MANAGER => "PACKAGE_MANAGER"
  | .HEARTBEAT => "HEARTBEAT"

/-- The Monitor subclasses registered in the monitor.MONITORS dispatch table. -/
inductive MonitorClass where
  | LoadAverageMonitor
  | DiskUsageMonitor
  | DiskWriteRateMonitor
  | TemperatureMonitor
  | UptimeMonitor
  | SystemdMonitor
  | PingMonitor
  | PackageManagerMonitor
  deriving DecidableEq

/-- monitor.MONITORS: the dispatch table from metric kind to Monitor subclass.
MonitorName.HEARTBEAT has no entry. -/
def MONITORS : MonitorName → Option MonitorClass
  | .LOAD_AVERAGE => some .LoadAverageMonitor
  | .DISK_USAGE => some .DiskUsageMonitor
  | .DISK_WRITE_RATE => some .DiskWriteRateMonitor
  | .TEMPERATURE => some .TemperatureMonitor
  | .UPTIME => some .UptimeMonitor
  | .SYSTEMD => some .SystemdMonitor
  | .PING => some .PingMonitor
  | .PACKAGE_MANAGER => some .PackageManagerMonitor
  | .HEARTBEAT => none

/-- monitor.get_monitors, restricted to the part the claim is about: walk the
configured monitor list in order, looking each kind up in MONITORS; the first
kind with no entry raises RuntimeError with the logged message, otherwise the
constructed monitor list is returned (Except.error models the raise). -/
def get_monitors : List MonitorName → Except String (List MonitorClass)
  | [] => .ok []
  | n :: rest =>
    match MONITORS n with
    | none => .error ("Bug: Monitor " ++ n.value ++ " not implemented!")
    | some c =>
      match get_monitors rest with
      | .error e => .error e
      | .ok l => .ok (c :: l)

/-- A monitor status snapshot (monitor.MonitorStatus).  Monitor identities
(uuid.UUID) are modelled as naturals. -/
structure MStatus where
  id : Nat
  name : String
  title : String
  alarms : List AlarmConfig
  unit : String
  values : List Point
  active_alarm : Option AlarmConfig
  deriving DecidableEq

/-- One tracked alarm (alarm.AlarmerAlarmInfo). -/
structure AlarmInfo where
  id : Nat
  monitor : MStatus
  last_alert : Int
  deriving DecidableEq

/-- The lifecycle events an Alarmer emits (its four abstract callbacks). -/
inductive AEvent where
  | ended (info : AlarmInfo)
  | started (info : AlarmInfo)
  | changed (prev next : AlarmInfo)
  | reminder (info : AlarmInfo)
  deriving DecidableEq

/-- The monitor identity an event is about. -/
def AEvent.evid : AEvent → Nat
  | .ended i => i.id
  | .started i => i.id
  | .changed _ n => n.id
  | .reminder i => i.id

def AEvent.isEnded : AEvent → Bool
  | .ended _ => true
  | _ => false

def AEvent.isStarted : AEvent → Bool
  | .started _ => true
  | _ => false

def AEvent.isChanged : AEvent → Bool
  | .changed _ _ => true
  | _ => false

def AEvent.isReminder : AEvent → Bool
  | .reminder _ => true
  | _ => false

/-- The keys of an association list (modelling dict key order). -/
def akeys {β : Type} (l : List (Nat × β)) : List Nat :=
  l.map Prod.fst

/-- The stripped snapshot stored by Alarmer.run for an alarmed monitor: same
identity/name/title/unit/active_alarm, but alarms=[] and values=(). -/
def strip_status (s : MStatus) : MStatus :=
  { s with alarms := [], values := [] }

/-- Alarmer.run step 1: the alarmed_statuses dict — statuses whose active_alarm
is not None, stripped, in status (dict) order. -/
def alarmed_of (statuses : List (Nat × MStatus)) : List (Nat × MStatus) :=
  statuses.filterMap
    (fun e => if e.2.active_alarm.isSome then some (e.1, strip_status e.2) else none)

/-- Alarmer.run step 2: remove tracked alarms that are no longer active,
emitting alarm_ended for each.  The source collects the ids in a Python set
before deleting; the removal order within the phase is unspecified there, and
is taken here to be tracking order. -/
def ended_phase (alarmed : List (Nat × MStatus)) (cur : List (Nat × AlarmInfo)) :
    List (Nat × AlarmInfo) × List AEvent :=
  (cur.filter (fun e => (alarmed.lookup e.1).isSome),
   (cur.filter (fun e => !(alarmed.lookup e.1).isSome)).map (fun e => .ended e.2))

/-- Replace the value stored at key `i` (dict item assignment keeps the key's
position). -/
def replace_entry (cur : List (Nat × AlarmInfo)) (i : Nat) (v : AlarmInfo) :
    List (Nat × AlarmInfo) :=
  cur.map (fun e => if e.1 = i then (e.1, v) else e)

/-- Alarmer.run step 3: for each alarmed monitor that is already tracked but
whose verdict differs from the remembered one, emit alarm_changed(old, new) and
replace the tracked entry with one whose last_alert is `now`. -/
def changed_phase (now : Int) :
    List (Nat × MStatus) → List (Nat × AlarmInfo) → List (Nat × AlarmInfo) × List AEvent
  | [], cur => (cur, [])
  | (i, st) :: rest, cur =>
    match cur.lookup i with
    | none => changed_phase now rest cur
    | some known =>
      if st.active_alarm ≠ known.monitor.active_alarm then
        let newInfo : AlarmInfo := ⟨i, st, now⟩
        let r := changed_phase now rest (replace_entry cur i newInfo)
        (r.1, .changed known newInfo :: r.2)
      else changed_phase now rest cur

/-- Alarmer.run step 4: for each alarmed monitor with no tracked entry, emit
alarm_started and append a new tracked entry with last_alert = now (dict
insertion appends at the end of key order). -/
def started_phase (now : Int) :
    List (Nat × MStatus) → List (Nat × AlarmInfo) → List (Nat × AlarmInfo) × List AEvent
  | [], cur => (cur, [])
  | (i, st) :: rest, cur =>
    match cur.lookup i with
    | some _ => started_phase now rest cur
    | none =>
      let newInfo : AlarmInfo := ⟨i, st, now⟩
      let r := started_phase now rest (cur ++ [(i, newInfo)])
      (r.1, .started newInfo :: r.2)

/-- The per-entry reminder decision of Alarmer.run step 5: skip entries with no
active alarm (logged as a bug) or no configured reminder_age; when
now - last_alert > reminder_age, set last_alert to now (in-place mutation of
the tracked entry) and emit alarm_reminder with the updated entry. -/
def reminder_step (now : Int) (info : AlarmInfo) : AlarmInfo × Option AEvent :=
  match info.monitor.active_alarm with
  | none => (info, none)
  | some al =>
    match al.reminder_age with
    | none => (info, none)
    | some age =>
      if age < now - info.last_alert then
        let info2 := { info with last_alert := now }
        (info2, some (.reminder info2))
      else (info, none)

/-- Alarmer.run step 5 over the whole tracked dict, in tracking order. -/
def reminder_phase (now : Int) (cur : List (Nat × AlarmInfo)) :
    List (Nat × AlarmInfo) × List AEvent :=
  (cur.map (fun e => (e.1, (reminder_step now e.2).1)),
   cur.filterMap (fun e => (reminder_step now e.2).2))

/-- One full pass of Alarmer.run: the four phases in source order, returning
the new tracked dict and the emitted events in emission order. -/
def alarmer_run (now : Int) (statuses : List (Nat × MStatus))
    (cur : List (Nat × AlarmInfo)) : List (Nat × AlarmInfo) × List AEvent :=
  let alarmed := alarmed_of statuses
  let r1 := ended_phase alarmed cur
  let r2 := changed_phase now alarmed r1.1
  let r3 := started_phase now alarmed r2.1
  let r4 := reminder_phase now r3.1
  (r4.1, r1.2 ++ r2.2 ++ r3.2 ++ r4.2)

/-- The tracked dict keeps each AlarmerAlarmInfo under its own id as key; the
source maintains this by construction. -/
def keys_consistent (cur : List (Nat × AlarmInfo)) : Prop :=
  ∀ e ∈ cur, e.2.id = e.1

/-! ## Claim C2: strict threshold comparison -/

/-- C2: for every alarm rule and every history, a datapoint whose value is
exactly equal to the rule's threshold never counts as satisfying the rule, for
both OVER and UNDER directions: whenever the threshold value occurs among the
examined window of datapoints, the rule check returns false, because both
comparisons are strict. -/
theorem equal_threshold_never_satisfies (a : AlarmConfig) (dps : List ℚ)
    (w : List ℚ) (hw : alarm_window dps a.count = some w) (hmem : a.value ∈ w) :
    set_alarm_status_rule dps a = false := by
  unfold set_alarm_status_rule
  rw [hw]
  cases a.exceedance with
  | UNDER =>
    simp only [List.all_eq_false]
    exact ⟨a.value, hmem, by simp⟩
  | OVER =>
    simp only [List.all_eq_false]
    exact ⟨a.value, hmem, by simp⟩

def c2_over_rule : AlarmConfig := ⟨"c2over", 1, 2, .OVER, none⟩

def c2_under_rule : AlarmConfig := ⟨"c2under", 1, 2, .UNDER, none⟩

/-- Witness for C2: a history ending in the exact threshold value 2 satisfies
neither an OVER rule at 2 nor an UNDER rule at 2. -/
theorem equal_threshold_never_satisfies_witness :
    alarm_window [(2 : ℚ)] c2_over_rule.count = some [2] ∧ (2 : ℚ) ∈ [(2 : ℚ)] ∧
      set_alarm_status_rule [2] c2_over_rule = false ∧
      set_alarm_status_rule [2] c2_under_rule = false :=
  ⟨by decide, by decide,
   equal_threshold_never_satisfies c2_over_rule [2] [2] (by decide) (by decide),
   equal_threshold_never_satisfies c2_under_rule [2] [2] (by decide) (by decide)⟩

/-! ## Claim C3: insufficient data skips the rule -/

/-- C3: a rule whose required count exceeds the history length never fires (the
IndexError is caught and the check returns false), and evaluation continues
with the remaining rules: removing such a rule from either scan list leaves the
verdict unchanged. -/
theorem insufficient_data_never_fires (a : AlarmConfig) (dps : List ℚ)
    (h : dps.length < a.count) :
    set_alarm_status_rule dps a = false ∧
    (∀ o1 o2 u, set_alarm_status (o1 ++ a :: o2) u dps
      = set_alarm_status (o1 ++ o2) u dps) ∧
    (∀ o u1 u2, set_alarm_status o (u1 ++ a :: u2) dps
      = set_alarm_status o (u1 ++ u2) dps) := by
  have hfalse : set_alarm_status_rule dps a = false := by
    unfold set_alarm_status_rule alarm_window
    rw [if_neg (by omega)]
  refine ⟨hfalse, ?_, ?_⟩
  · intro o1 o2 u
    unfold set_alarm_status
    rw [List.find?_append, List.find?_append,
      List.find?_cons_of_neg _ (by simp [hfalse])]
  · intro o u1 u2
    unfold set_alarm_status
    rw [List.find?_append, List.find?_append,
      List.find?_cons_of_neg _ (by simp [hfalse])]

def c3_big_rule : AlarmConfig := ⟨"c3big", 2, 80, .OVER, none⟩

def c3_small_rule : AlarmConfig := ⟨"c3small", 1, 70, .OVER, none⟩

/-- Witness for C3: with a single datapoint 81, a count-2 rule cannot fire, and
dropping it from the scan leaves the verdict produced by the remaining count-1
rule unchanged. -/
theorem insufficient_data_never_fires_witness :
    [(81 : ℚ)].length < c3_big_rule.count ∧
      set_alarm_status_rule [81] c3_big_rule = false ∧
      set_alarm_status ([] ++ c3_big_rule :: [c3_small_rule]) [] [81]
        = set_alarm_status ([] ++ [c3_small_rule]) [] [81] :=
  ⟨by decide, (insufficient_data_never_fires c3_big_rule [81] (by decide)).1,
   (insufficient_data_never_fires c3_big_rule [81] (by decide)).2.1 [] [c3_small_rule] []⟩

/-! ## Claim C4: the rolling history is a FIFO capped at 100 -/

theorem run_tick_eq_drop (h : List Point) (p : Point)
    (hl : h.length ≤ MAX_DATAPOINTS) :
    run_tick h p = (h ++ [p]).drop (h.length + 1 - MAX_DATAPOINTS) := by
  unfold run_tick
  by_cases hc : MAX_DATAPOINTS < (h ++ [p]).length
  · rw [if_pos hc]
    simp only [List.length_append, List.length_cons, List.length_nil] at hc
    have hlen : h.length + 1 - MAX_DATAPOINTS = 1 := by omega
    rw [hlen, List.drop_one]
  · rw [if_neg hc]
    simp only [List.length_append, List.length_cons, List.length_nil] at hc
    have hlen : h.length + 1 - MAX_DATAPOINTS = 0 := by omega
    rw [hlen, List.drop_zero]

theorem run_ticks_eq_drop (ps : List Point) :
    ∀ h : List Point, h.length ≤ MAX_DATAPOINTS →
      run_ticks h ps = (h ++ ps).drop (h.length + ps.length - MAX_DATAPOINTS) := by
  induction ps with
  | nil =>
    intro h hl
    simp only [run_ticks, List.foldl_nil, List.append_nil, List.length_nil]
    have h0 : h.length + 0 - MAX_DATAPOINTS = 0 := by omega
    rw [h0, List.drop_zero]
  | cons p ps ih =>
    intro h hl
    have step : run_ticks h (p :: ps) = run_ticks (run_tick h p) ps := rfl
    have h1e := run_tick_eq_drop h p hl
    have h1l : (run_tick h p).length ≤ MAX_DATAPOINTS := by
      rw [h1e, List.length_drop]
      simp only [List.length_append, List.length_cons, List.length_nil]
      omega
    have hk : h.length + 1 - MAX_DATAPOINTS ≤ (h ++ [p]).length := by
      simp only [List.length_append, List.length_cons, List.length_nil]
      omega
    have e1 : List.drop (h.length + 1 - MAX_DATAPOINTS) (h ++ [p]) ++ ps
        = List.drop (h.length + 1 - MAX_DATAPOINTS) ((h ++ [p]) ++ ps) :=
      (List.drop_append_of_le_length hk).symm
    rw [step, ih (run_tick h p) h1l, h1e, e1, List.drop_drop]
    have harr : h ++ p :: ps = (h ++ [p]) ++ ps := by simp
    rw [harr]
    congr 1
    rw [List.length_drop]
    simp only [List.length_append, List.length_cons, List.length_nil]
    omega

/-- C4: starting from the empty history of a fresh Monitor, any sequence of
ticks leaves exactly the most recent MAX_DATAPOINTS (= 100) datapoints, in
arrival (time-ascending) order: the history equals the input sequence with all
but the last 100 entries dropped, its length never exceeds 100, each tick
appends at the tail evicting exactly the oldest entry when over capacity, and
after at least 100 ticks the length is exactly 100. -/
theorem history_fifo_capped (ps : List Point) :
    run_ticks [] ps = ps.drop (ps.length - MAX_DATAPOINTS) ∧
    (run_ticks [] ps).length ≤ MAX_DATAPOINTS ∧
    (∀ h p, h.length = MAX_DATAPOINTS → run_tick h p = (h ++ [p]).tail) ∧
    (MAX_DATAPOINTS ≤ ps.length → (run_ticks [] ps).length = MAX_DATAPOINTS) := by
  have base := run_ticks_eq_drop ps [] (by simp [MAX_DATAPOINTS])
  simp only [List.length_nil, List.nil_append, Nat.zero_add] at base
  refine ⟨base, ?_, ?_, ?_⟩
  · rw [base, List.length_drop]; omega
  · intro h p hlen
    unfold run_tick
    rw [if_pos (by
      simp only [List.length_append, List.length_cons, List.length_nil]; omega)]
  · intro hge
    rw [base, List.length_drop]
    omega

/-- Witness for C4: after 101 ticks the history holds exactly 100 datapoints,
namely the last 100 of the inputs. -/
theorem history_fifo_capped_witness :
    (∀ h p, h.length = MAX_DATAPOINTS → run_tick h p = (h ++ [p]).tail) ∧
      MAX_DATAPOINTS ≤ (List.replicate 101 (Point.mk 0 0)).length ∧
      (run_ticks [] (List.replicate 101 (Point.mk 0 0))).length = MAX_DATAPOINTS :=
  ⟨(history_fifo_capped []).2.2.1,
   by simp [MAX_DATAPOINTS],
   (history_fifo_capped (List.replicate 101 (Point.mk 0 0))).2.2.2
     (by simp [MAX_DATAPOINTS])⟩

/-! ## Claim C7: disk-write-rate sampler -/

/-- C7 (amended): the first call after construction returns 0 regardless of the
counter value; a subsequent call divides the counter difference by the
whole-seconds COMPONENT of the elapsed interval (timedelta.seconds, i.e. the
elapsed time modulo one day, floored to seconds — not the total elapsed
seconds), then by the unit divider, raising ZeroDivisionError (result `none`)
when that component is zero; the component agrees with the elapsed seconds
exactly for whole-second intervals below one day; and once the counter source
is unavailable the sampler permanently returns 0. -/
theorem dwr_rate_semantics (divider : ℚ) :
    (∀ probe, (dwr_get_datapoint divider dwr_init probe).2 = some 0) ∧
    (∀ pt pc t c, td_seconds (t - pt) ≠ 0 →
      (dwr_get_datapoint divider ⟨false, some (pt, pc)⟩ (some (t, c))).2
        = some (((c - pc : Int) : ℚ) / ((td_seconds (t - pt) : Int) : ℚ) / divider)) ∧
    (∀ pt pc t c, td_seconds (t - pt) = 0 →
      (dwr_get_datapoint divider ⟨false, some (pt, pc)⟩ (some (t, c))).2 = none) ∧
    (∀ k : Int, 0 < k → k < 86400 → td_seconds (k * 1000000) = k) ∧
    (∀ s : DWRState, s.warned = true → (dwr_get_datapoint divider s none).2 = some 0 ∧
      ∀ probes, ∀ v ∈ (dwr_run divider s probes).2, v = some 0) ∧
    (∀ s : DWRState, (dwr_get_datapoint divider s none).2 = some 0) := by
  have hwarn : ∀ s : DWRState, s.warned = true →
      ∀ probe, dwr_get_datapoint divider s probe = (s, some 0) := by
    intro s hs probe
    unfold dwr_get_datapoint
    rw [if_pos hs]
  refine ⟨?_, ?_, ?_, ?_, ?_, ?_⟩
  · intro probe
    cases probe with
    | none => rfl
    | some tc => rfl
  · intro pt pc t c hne
    unfold dwr_get_datapoint
    simp only [Bool.false_eq_true, if_false, if_neg hne]
  · intro pt pc t c heq
    unfold dwr_get_datapoint
    simp only [Bool.false_eq_true, if_false, if_pos heq]
  · intro k hk0 hk1
    unfold td_seconds MICROS_PER_DAY
    have hmod : k * 1000000 % 86400000000 = k * 1000000 :=
      Int.emod_eq_of_lt (by positivity) (by omega)
    rw [hmod, Int.mul_ediv_cancel k (by norm_num)]
  · intro s hs
    refine ⟨by rw [hwarn s hs none], ?_⟩
    intro probes
    induction probes with
    | nil => intro v hv; simp [dwr_run] at hv
    | cons probe rest ih =>
      intro v hv
      simp only [dwr_run, hwarn s hs probe] at hv
      rcases List.mem_cons.mp hv with h | h
      · exact h
      · exact ih v h
  · intro s
    by_cases hs : s.warned = true
    · rw [hwarn s hs none]
    · unfold dwr_get_datapoint
      rw [if_neg hs]

/-- Witness for C7: from a fresh sampler, a first probe at time 0 with counter
0 yields 0; a second probe 3 whole seconds later with counter 12 yields
(12 - 0) / 3 / divider with divider 2, i.e. 2. -/
theorem dwr_rate_semantics_witness :
    (dwr_get_datapoint 2 dwr_init (some (0, 0))).2 = some 0 ∧
    td_seconds (3000000 - 0) ≠ 0 ∧
    (dwr_get_datapoint 2 ⟨false, some (0, 0)⟩ (some (3000000, 12))).2
      = some (((12 - 0 : Int) : ℚ) / ((td_seconds (3000000 - 0) : Int) : ℚ) / 2) ∧
    (0 : Int) < 3 ∧ (3 : Int) < 86400 ∧ td_seconds (3 * 1000000) = 3 :=
  ⟨(dwr_rate_semantics 2).1 (some (0, 0)), by decide,
   (dwr_rate_semantics 2).2.1 0 0 3000000 12 (by decide),
   by decide, by decide, (dwr_rate_semantics 2).2.2.2.1 3 (by decide) (by decide)⟩

/-- Counterexample for C7 as stated: with unit divider, after a first probe at
time 0 with counter 0, a second probe 2.5 seconds later with counter 10
returns 10 / 2 = 5 (the seconds component of the interval is 2), while the
claimed value (counter difference divided by the elapsed 2.5 seconds) is 4. -/
theorem dwr_rate_counterexample :
    (dwr_get_datapoint 1 (dwr_get_datapoint 1 dwr_init (some (0, 0))).1
        (some (2500000, 10))).2 = some 5 ∧
    ((10 : ℚ) - 0) / ((5 : ℚ) / 2) / 1 = 4 ∧ (5 : ℚ) ≠ 4 := by
  refine ⟨?_, by norm_num, by norm_num⟩
  norm_num [dwr_get_datapoint, dwr_init, td_seconds, MICROS_PER_DAY]

/-! ## Claim C8: ping sampler -/

/-- C8: the ping sampler's intended behaviour holds on the initial state (no
probe completed yet: -1 × 1000), on a successful probe (stored seconds × 1000)
and on a probe that raised (-1 × 1000); but when ping3.ping returns None
(target unreachable), _run_ping stores None — its `-1` assignment on the None
branch is dead, being immediately overwritten by `_last_ping = response_time` —
and the next get_datapoint evaluates None * 1000 and raises TypeError (result
`none`) instead of returning -1000 as the spec intends.  Also, get_datapoint
leaves a probe marked in flight, and _start_ping never starts a second one. -/
theorem ping_unreachable_type_error :
    (ping_get_datapoint ping_init).2 = some (-1000) ∧
    (∀ s r, (ping_get_datapoint (ping_run_probe s (.ok (some r)))).2
      = some (r * 1000)) ∧
    (∀ s, (ping_get_datapoint (ping_run_probe s .exn)).2 = some (-1000)) ∧
    (∀ s, (ping_get_datapoint (ping_run_probe s (.ok none))).2 = none) ∧
    (∀ s, ((ping_get_datapoint s).1).inFlight = true) := by
  refine ⟨?_, ?_, ?_, ?_, ?_⟩
  · show (some ((-1 : ℚ) * 1000)) = some (-1000)
    norm_num
  · intro s r; rfl
  · intro s
    show (some ((-1 : ℚ) * 1000)) = some (-1000)
    norm_num
  · intro s; rfl
  · intro s
    unfold ping_get_datapoint
    by_cases h : s.inFlight
    · simp [h]
    · simp [h]

/-! ## Claim C9: service-state sampler -/

/-- Counterexample for C9 as stated: probing a unit in the real systemd state
"activating" makes get_datapoint raise TypeError out of the call (only
dbus.DBusException is caught), rather than returning code 1. -/
theorem systemd_unexpected_state_counterexample :
    systemd_get_datapoint (.state "activating")
        = .error "Unexpected service state: activating" ∧
      systemd_get_datapoint (.state "activating") ≠ .ok 1 :=
  ⟨rfl, fun h => by simp [systemd_get_datapoint] at h⟩

/-- C9 (amended): get_datapoint maps active→0, inactive→1, failed→2, and a DBus
probe error yields code 1 (assume stopped, logged); but an unexpected state
string raises TypeError out of the call, since the except clause catches only
dbus.DBusException. -/
theorem systemd_state_mapping :
    systemd_get_datapoint .dbusError = .ok 1 ∧
    systemd_get_datapoint (.state "active") = .ok 0 ∧
    systemd_get_datapoint (.state "inactive") = .ok 1 ∧
    systemd_get_datapoint (.state "failed") = .ok 2 ∧
    (∀ s : String, s ≠ "active" → s ≠ "inactive" → s ≠ "failed" →
      systemd_get_datapoint (.state s)
        = .error ("Unexpected service state: " ++ s)) := by
  refine ⟨rfl, rfl, rfl, rfl, ?_⟩
  intro s h1 h2 h3
  simp [systemd_get_datapoint, h1, h2, h3]

/-- Witness for C9: the amended mapping applied to the unexpected state
"reloading". -/
theorem systemd_state_mapping_witness :
    ("reloading" : String) ≠ "active" ∧
      systemd_get_datapoint (.state "reloading")
        = .error ("Unexpected service state: " ++ "reloading") :=
  ⟨by decide, systemd_state_mapping.2.2.2.2 "reloading" (by decide) (by decide)
    (by decide)⟩

/-! ## Claim C10: HEARTBEAT validates but cannot be constructed -/

/-- C10: a configuration whose monitor list mentions the HEARTBEAT kind — a
kind the configuration model accepts (it is a constructor of MonitorName, a
member of the discriminated config union) — always makes get_monitors raise
RuntimeError with the bug message, because MONITORS has no HEARTBEAT entry;
conversely every HEARTBEAT-free list constructs a registry. -/
theorem get_monitors_heartbeat (ms : List MonitorName) :
    (MonitorName.HEARTBEAT ∈ ms →
      get_monitors ms = .error "Bug: Monitor HEARTBEAT not implemented!") ∧
    (MonitorName.HEARTBEAT ∉ ms → ∃ l, get_monitors ms = .ok l) := by
  induction ms with
  | nil =>
    exact ⟨fun h => absurd h (List.not_mem_nil _), fun _ => ⟨[], rfl⟩⟩
  | cons n rest ih =>
    constructor
    · intro hmem
      rcases List.mem_cons.mp hmem with heq | htail
      · subst heq; rfl
      · have hrest := ih.1 htail
        cases n
        all_goals first
        | rfl
        | simp [get_monitors, MONITORS, hrest]
    · intro hnmem
      have hn : n ≠ MonitorName.HEARTBEAT := fun h => hnmem (h ▸ List.mem_cons_self n rest)
      have htail : MonitorName.HEARTBEAT ∉ rest := fun h => hnmem (List.mem_cons_of_mem n h)
      obtain ⟨l, hl⟩ := ih.2 htail
      cases n with
      | HEARTBEAT => exact absurd rfl hn
      | LOAD_AVERAGE => exact ⟨.LoadAverageMonitor :: l, by simp [get_monitors, MONITORS, hl]⟩
      | DISK_USAGE => exact ⟨.DiskUsageMonitor :: l, by simp [get_monitors, MONITORS, hl]⟩
      | DISK_WRITE_RATE => exact ⟨.DiskWriteRateMonitor :: l, by simp [get_monitors, MONITORS, hl]⟩
      | TEMPERATURE => exact ⟨.TemperatureMonitor :: l, by simp [get_monitors, MONITORS, hl]⟩
      | UPTIME => exact ⟨.UptimeMonitor :: l, by simp [get_monitors, MONITORS, hl]⟩
      | SYSTEMD => exact ⟨.SystemdMonitor :: l, by simp [get_monitors, MONITORS, hl]⟩
      | PING => exact ⟨.PingMonitor :: l, by simp [get_monitors, MONITORS, hl]⟩
      | PACKAGE_MANAGER => exact ⟨.PackageManagerMonitor :: l, by simp [get_monitors, MONITORS, hl]⟩

/-- Witness for C10: a two-monitor configuration with a HEARTBEAT entry fails
to construct. -/
theorem get_monitors_heartbeat_witness :
    MonitorName.HEARTBEAT ∈ [MonitorName.LOAD_AVERAGE, MonitorName.HEARTBEAT] ∧
      get_monitors [MonitorName.LOAD_AVERAGE, MonitorName.HEARTBEAT]
        = .error "Bug: Monitor HEARTBEAT not implemented!" :=
  ⟨by decide, (get_monitors_heartbeat _).1 (by decide)⟩

/-! ## Claim C1: the alarm-priority scan -/

theorem insert_desc_perm (a : AlarmConfig) (l : List AlarmConfig) :
    (insert_desc a l).Perm (a :: l) := by
  induction l with
  | nil => exact List.Perm.refl _
  | cons b t ih =>
    unfold insert_desc
    by_cases hc : b.value ≤ a.value
    · rw [if_pos hc]
    · rw [if_neg hc]
      exact List.Perm.trans (List.Perm.cons b ih) (List.Perm.swap a b t)

theorem insert_asc_perm (a : AlarmConfig) (l : List AlarmConfig) :
    (insert_asc a l).Perm (a :: l) := by
  induction l with
  | nil => exact List.Perm.refl _
  | cons b t ih =>
    unfold insert_asc
    by_cases hc : a.value ≤ b.value
    · rw [if_pos hc]
    · rw [if_neg hc]
      exact List.Perm.trans (List.Perm.cons b ih) (List.Perm.swap a b t)

theorem sort_desc_perm (l : List AlarmConfig) : (sort_desc l).Perm l := by
  induction l with
  | nil => exact List.Perm.refl _
  | cons a t ih =>
    exact List.Perm.trans (insert_desc_perm a (sort_desc t)) (List.Perm.cons a ih)

theorem sort_asc_perm (l : List AlarmConfig) : (sort_asc l).Perm l := by
  induction l with
  | nil => exact List.Perm.refl _
  | cons a t ih =>
    exact List.Perm.trans (insert_asc_perm a (sort_asc t)) (List.Perm.cons a ih)

theorem insert_desc_pairwise (a : AlarmConfig) (l : List AlarmConfig)
    (hl : l.Pairwise (fun x y => y.value ≤ x.value)) :
    (insert_desc a l).Pairwise (fun x y => y.value ≤ x.value) := by
  induction l with
  | nil => simp [insert_desc]
  | cons b t ih =>
    rw [List.pairwise_cons] at hl
    obtain ⟨hb, ht⟩ := hl
    unfold insert_desc
    by_cases hc : b.value ≤ a.value
    · rw [if_pos hc]
      refine List.pairwise_cons.mpr ⟨?_, List.pairwise_cons.mpr ⟨hb, ht⟩⟩
      intro y hy
      rcases List.mem_cons.mp hy with rfl | hyt
      · exact hc
      · exact le_trans (hb y hyt) hc
    · rw [if_neg hc]
      push_neg at hc
      refine List.pairwise_cons.mpr ⟨?_, ih ht⟩
      intro y hy
      rcases List.mem_cons.mp ((insert_desc_perm a t).mem_iff.mp hy) with rfl | hyt
      · exact hc.le
      · exact hb y hyt

theorem insert_asc_pairwise (a : AlarmConfig) (l : List AlarmConfig)
    (hl : l.Pairwise (fun x y => x.value ≤ y.value)) :
    (insert_asc a l).Pairwise (fun x y => x.value ≤ y.value) := by
  induction l with
  | nil => simp [insert_asc]
  | cons b t ih =>
    rw [List.pairwise_cons] at hl
    obtain ⟨hb, ht⟩ := hl
    unfold insert_asc
    by_cases hc : a.value ≤ b.value
    · rw [if_pos hc]
      refine List.pairwise_cons.mpr ⟨?_, List.pairwise_cons.mpr ⟨hb, ht⟩⟩
      intro y hy
      rcases List.mem_cons.mp hy with rfl | hyt
      · exact hc
      · exact le_trans hc (hb y hyt)
    · rw [if_neg hc]
      push_neg at hc
      refine List.pairwise_cons.mpr ⟨?_, ih ht⟩
      intro y hy
      rcases List.mem_cons.mp ((insert_asc_perm a t).mem_iff.mp hy) with rfl | hyt
      · exact hc.le
      · exact hb y hyt

theorem sort_desc_pairwise (l : List AlarmConfig) :
    (sort_desc l).Pairwise (fun x y => y.value ≤ x.value) := by
  induction l with
  | nil => simp [sort_desc]
  | cons a t ih => exact insert_desc_pairwise a (sort_desc t) ih

theorem sort_asc_pairwise (l : List AlarmConfig) :
    (sort_asc l).Pairwise (fun x y => x.value ≤ y.value) := by
  induction l with
  | nil => simp [sort_asc]
  | cons a t ih => exact insert_asc_pairwise a (sort_asc t) ih

theorem mem_over_alarms (alarms : List AlarmConfig) (x : AlarmConfig) :
    x ∈ over_alarms alarms ↔ x ∈ alarms ∧ x.exceedance = .OVER := by
  unfold over_alarms
  rw [(sort_desc_perm _).mem_iff, List.mem_filter]
  simp

theorem mem_under_alarms (alarms : List AlarmConfig) (x : AlarmConfig) :
    x ∈ under_alarms alarms ↔ x ∈ alarms ∧ x.exceedance = .UNDER := by
  unfold under_alarms
  rw [(sort_asc_perm _).mem_iff, List.mem_filter]
  simp

/-- The first element found in a list sorted for a reflexive relation bounds
every satisfying element of the list. -/
theorem find?_first_bound {α : Type} (R : α → α → Prop) (hrefl : ∀ x, R x x)
    (p : α → Bool) :
    ∀ l : List α, l.Pairwise R → ∀ r, l.find? p = some r →
      ∀ b ∈ l, p b = true → R r b := by
  intro l
  induction l with
  | nil =>
    intro _ r hr
    simp at hr
  | cons a t ih =>
    intro hp r hr b hb hpb
    rw [List.pairwise_cons] at hp
    cases hpa : p a with
    | true =>
      rw [List.find?_cons_of_pos t hpa] at hr
      injection hr with hr
      subst hr
      rcases List.mem_cons.mp hb with rfl | hbt
      · exact hrefl _
      · exact hp.1 b hbt
    | false =>
      rw [List.find?_cons_of_neg t (by simp [hpa])] at hr
      rcases List.mem_cons.mp hb with rfl | hbt
      · rw [hpa] at hpb
        exact absurd hpb (by simp)
      · exact ih hp.2 r hr b hbt hpb

/-- C1 (amended): evaluate scans the descending-sorted OVER rules first, then
the ascending-sorted UNDER rules, with strict all-of-last-N semantics: any
verdict is a firing configured rule; when some OVER rule fires the verdict is
a firing OVER rule of maximal threshold; when no OVER rule fires but some
UNDER rule does, the verdict is a firing UNDER rule of minimal threshold; when
nothing fires the verdict is none.  For two simultaneously firing OVER rules
r1, r2 with r2.value < r1.value, the verdict is a firing OVER rule whose
threshold is at least r1's — hence never r2, though it can lie above r1. -/
theorem evaluate_scan_priority (alarms : List AlarmConfig) (dps : List ℚ) :
    (∀ r, evaluate alarms dps = some r →
      r ∈ alarms ∧ set_alarm_status_rule dps r = true) ∧
    ((∃ a ∈ alarms, a.exceedance = .OVER ∧ set_alarm_status_rule dps a = true) →
      ∃ r, evaluate alarms dps = some r ∧ r ∈ alarms ∧ r.exceedance = .OVER ∧
        set_alarm_status_rule dps r = true ∧
        ∀ b ∈ alarms, b.exceedance = .OVER → set_alarm_status_rule dps b = true →
          b.value ≤ r.value) ∧
    ((∀ a ∈ alarms, a.exceedance = .OVER → set_alarm_status_rule dps a = false) →
      (∃ a ∈ alarms, a.exceedance = .UNDER ∧ set_alarm_status_rule dps a = true) →
      ∃ r, evaluate alarms dps = some r ∧ r ∈ alarms ∧ r.exceedance = .UNDER ∧
        set_alarm_status_rule dps r = true ∧
        ∀ b ∈ alarms, b.exceedance = .UNDER → set_alarm_status_rule dps b = true →
          r.value ≤ b.value) ∧
    ((∀ a ∈ alarms, set_alarm_status_rule dps a = false) →
      evaluate alarms dps = none) ∧
    (∀ r1 ∈ alarms, ∀ r2 ∈ alarms, r1.exceedance = .OVER → r2.exceedance = .OVER →
      r2.value < r1.value → set_alarm_status_rule dps r1 = true →
      set_alarm_status_rule dps r2 = true →
      ∃ r, evaluate alarms dps = some r ∧ r.exceedance = .OVER ∧
        set_alarm_status_rule dps r = true ∧ r1.value ≤ r.value ∧
        evaluate alarms dps ≠ some r2) := by
  have hover : ∀ r, (over_alarms alarms).find? (set_alarm_status_rule dps) = some r →
      ∃ x, evaluate alarms dps = some x ∧ x = r := by
    intro r hr
    refine ⟨r, ?_, rfl⟩
    unfold evaluate set_alarm_status
    rw [hr]
  have hpart2 : (∃ a ∈ alarms, a.exceedance = .OVER ∧
      set_alarm_status_rule dps a = true) →
      ∃ r, evaluate alarms dps = some r ∧ r ∈ alarms ∧ r.exceedance = .OVER ∧
        set_alarm_status_rule dps r = true ∧
        ∀ b ∈ alarms, b.exceedance = .OVER → set_alarm_status_rule dps b = true →
          b.value ≤ r.value := by
    rintro ⟨a, ha, haov, hap⟩
    have hmem : a ∈ over_alarms alarms := (mem_over_alarms alarms a).mpr ⟨ha, haov⟩
    have hsome : ((over_alarms alarms).find? (set_alarm_status_rule dps)).isSome :=
      List.find?_isSome.mpr ⟨a, hmem, hap⟩
    obtain ⟨r, hr⟩ := Option.isSome_iff_exists.mp hsome
    obtain ⟨x, hx, rfl⟩ := hover r hr
    have hrmem := (mem_over_alarms alarms x).mp (List.mem_of_find?_eq_some hr)
    refine ⟨x, hx, hrmem.1, hrmem.2, List.find?_some hr, ?_⟩
    intro b hb hbov hbp
    exact @find?_first_bound AlarmConfig (fun u v => v.value ≤ u.value)
      (fun u => le_refl u.value) (set_alarm_status_rule dps) (over_alarms alarms)
      (sort_desc_pairwise _) x hr b
      ((mem_over_alarms alarms b).mpr ⟨hb, hbov⟩) hbp
  refine ⟨?_, hpart2, ?_, ?_, ?_⟩
  · intro r hr
    unfold evaluate set_alarm_status at hr
    cases hfo : (over_alarms alarms).find? (set_alarm_status_rule dps) with
    | some a =>
      rw [hfo] at hr
      injection hr with hr
      exact hr ▸ ⟨((mem_over_alarms alarms a).mp (List.mem_of_find?_eq_some hfo)).1,
        List.find?_some hfo⟩
    | none =>
      rw [hfo] at hr
      exact ⟨((mem_under_alarms alarms r).mp (List.mem_of_find?_eq_some hr)).1,
        List.find?_some hr⟩
  · intro hno hexu
    have hfo : (over_alarms alarms).find? (set_alarm_status_rule dps) = none := by
      rw [List.find?_eq_none]
      intro x hx
      have := (mem_over_alarms alarms x).mp hx
      simp [hno x this.1 this.2]
    obtain ⟨a, ha, haun, hap⟩ := hexu
    have hmem : a ∈ under_alarms alarms := (mem_under_alarms alarms a).mpr ⟨ha, haun⟩
    have hsome : ((under_alarms alarms).find? (set_alarm_status_rule dps)).isSome :=
      List.find?_isSome.mpr ⟨a, hmem, hap⟩
    obtain ⟨r, hr⟩ := Option.isSome_iff_exists.mp hsome
    have hev : evaluate alarms dps = some r := by
      unfold evaluate set_alarm_status
      rw [hfo, hr]
    have hrmem := (mem_under_alarms alarms r).mp (List.mem_of_find?_eq_some hr)
    refine ⟨r, hev, hrmem.1, hrmem.2, List.find?_some hr, ?_⟩
    intro b hb hbun hbp
    exact @find?_first_bound AlarmConfig (fun u v => u.value ≤ v.value)
      (fun u => le_refl u.value) (set_alarm_status_rule dps) (under_alarms alarms)
      (sort_asc_pairwise _) r hr b
      ((mem_under_alarms alarms b).mpr ⟨hb, hbun⟩) hbp
  · intro hall
    have hfo : (over_alarms alarms).find? (set_alarm_status_rule dps) = none := by
      rw [List.find?_eq_none]
      intro x hx
      simp [hall x ((mem_over_alarms alarms x).mp hx).1]
    have hfu : (under_alarms alarms).find? (set_alarm_status_rule dps) = none := by
      rw [List.find?_eq_none]
      intro x hx
      simp [hall x ((mem_under_alarms alarms x).mp hx).1]
    unfold evaluate set_alarm_status
    rw [hfo, hfu]
  · intro r1 h1 r2 h2 h1ov h2ov hlt h1p h2p
    obtain ⟨r, hev, hrm, hrov, hrp, hmax⟩ := hpart2 ⟨r1, h1, h1ov, h1p⟩
    refine ⟨r, hev, hrov, hrp, hmax r1 h1 h1ov h1p, ?_⟩
    intro hcontra
    rw [hev] at hcontra
    injection hcontra with hcontra
    subst hcontra
    exact absurd (hmax r1 h1 h1ov h1p) (by exact not_le.mpr (by exact hlt))

def c1_top_rule : AlarmConfig := ⟨"c1top", 1, 3, .OVER, none⟩

def c1_mid_rule : AlarmConfig := ⟨"c1mid", 1, 2, .OVER, none⟩

def c1_low_rule : AlarmConfig := ⟨"c1low", 1, 1, .OVER, none⟩

/-- Counterexample for C1's final sentence as stated: with three OVER rules at
thresholds 3 > 2 > 1 and history [10], the rules at 2 and 1 are two OVER rules
with r1.threshold > r2.threshold that are both simultaneously satisfied, yet
the verdict is the rule at 3, not r1 (the rule at 2). -/
theorem evaluate_scan_priority_counterexample :
    c1_mid_rule.exceedance = .OVER ∧ c1_low_rule.exceedance = .OVER ∧
    c1_low_rule.value < c1_mid_rule.value ∧
    set_alarm_status_rule [10] c1_mid_rule = true ∧
    set_alarm_status_rule [10] c1_low_rule = true ∧
    evaluate [c1_top_rule, c1_mid_rule, c1_low_rule] [10] = some c1_top_rule ∧
    evaluate [c1_top_rule, c1_mid_rule, c1_low_rule] [10] ≠ some c1_mid_rule := by
  decide

/-- Witness for C1: with the two firing OVER rules at 2 and 1 alone, the scan
yields a firing OVER verdict of threshold at least 2, and never the rule at
1. -/
theorem evaluate_scan_priority_witness :
    ∃ r, evaluate [c1_mid_rule, c1_low_rule] [10] = some r ∧
      r.exceedance = .OVER ∧ set_alarm_status_rule [10] r = true ∧
      c1_mid_rule.value ≤ r.value ∧
      evaluate [c1_mid_rule, c1_low_rule] [10] ≠ some c1_low_rule :=
  (evaluate_scan_priority [c1_mid_rule, c1_low_rule] [10]).2.2.2.2
    c1_mid_rule (by decide) c1_low_rule (by decide) (by decide) (by decide)
    (by decide) (by decide) (by decide)

/-! ## Alarm tracker lemmas -/

theorem lookup_cons {β : Type} (j k : Nat) (v : β) (t : List (Nat × β)) :
    List.lookup k ((j, v) :: t) = if k = j then some v else List.lookup k t := by
  by_cases h : k = j
  · subst h
    simp [List.lookup]
  · rw [if_neg h]
    show (match k == j with
      | true => some v
      | false => List.lookup k t) = List.lookup k t
    rw [show (k == j) = false from beq_eq_false_iff_ne.mpr h]

theorem akeys_cons {β : Type} (j : Nat) (v : β) (t : List (Nat × β)) :
    akeys ((j, v) :: t) = j :: akeys t := rfl

theorem lookup_isSome_mem {β : Type} (l : List (Nat × β)) (k : Nat) :
    (l.lookup k).isSome = true ↔ k ∈ akeys l := by
  induction l with
  | nil => simp [List.lookup, akeys]
  | cons e t ih =>
    rcases e with ⟨j, v⟩
    rw [lookup_cons]
    by_cases h : k = j
    · subst h
      simp [akeys]
    · rw [if_neg h]
      simp only [akeys, List.map_cons, List.mem_cons]
      constructor
      · intro hs
        exact Or.inr (ih.mp hs)
      · rintro (heq | hm)
        · exact absurd heq h
        · exact ih.mpr hm

theorem lookup_append_single {β : Type} (l : List (Nat × β)) (i k : Nat) (v : β) :
    (l ++ [(i, v)]).lookup k
      = ((l.lookup k).or (if k = i then some v else none)) := by
  rw [List.lookup_append, lookup_cons]
  rfl

theorem akeys_replace_entry (cur : List (Nat × AlarmInfo)) (i : Nat)
    (v : AlarmInfo) : akeys (replace_entry cur i v) = akeys cur := by
  unfold akeys replace_entry
  rw [List.map_map]
  apply List.map_congr_left
  intro e _
  by_cases h : e.1 = i
  · simp [h]
  · simp [h]

theorem replace_entry_cons (k : Nat) (w : AlarmInfo) (t : List (Nat × AlarmInfo))
    (i : Nat) (v : AlarmInfo) :
    replace_entry ((k, w) :: t) i v
      = (if k = i then ((k : Nat), v) else (k, w)) :: replace_entry t i v := by
  unfold replace_entry
  simp only [List.map_cons]

theorem lookup_replace_entry_ne (cur : List (Nat × AlarmInfo)) (i j : Nat)
    (v : AlarmInfo) (h : j ≠ i) :
    (replace_entry cur i v).lookup j = cur.lookup j := by
  induction cur with
  | nil => rfl
  | cons e t ih =>
    rcases e with ⟨k, w⟩
    rw [replace_entry_cons]
    by_cases hk : k = i
    · have hjk : ¬ j = k := fun hh => h (by rw [hh, hk])
      rw [if_pos hk, lookup_cons, lookup_cons, if_neg hjk, if_neg hjk]
      exact ih
    · rw [if_neg hk, lookup_cons, lookup_cons]
      by_cases hj : j = k
      · rw [if_pos hj, if_pos hj]
      · rw [if_neg hj, if_neg hj]
        exact ih

theorem lookup_replace_entry_self (cur : List (Nat × AlarmInfo)) (i : Nat)
    (v : AlarmInfo) (h : (cur.lookup i).isSome = true) :
    (replace_entry cur i v).lookup i = some v := by
  induction cur with
  | nil => simp [List.lookup] at h
  | cons e t ih =>
    rcases e with ⟨k, w⟩
    rw [replace_entry_cons]
    rw [lookup_cons] at h
    by_cases hk : k = i
    · rw [if_pos hk, lookup_cons, if_pos hk.symm]
    · rw [if_neg hk, lookup_cons]
      by_cases hik : i = k
      · exact absurd hik.symm hk
      · rw [if_neg hik]
        rw [if_neg hik] at h
        exact ih h

theorem replace_entry_keys_consistent (cur : List (Nat × AlarmInfo)) (i : Nat)
    (v : AlarmInfo) (hc : keys_consistent cur) (hv : v.id = i) :
    keys_consistent (replace_entry cur i v) := by
  intro e he
  unfold replace_entry at he
  rcases List.mem_map.mp he with ⟨e0, he0, heq⟩
  by_cases h : e0.1 = i
  · rw [if_pos h] at heq
    rw [← heq]
    simpa [hv] using h.symm
  · rw [if_neg h] at heq
    rw [← heq]
    exact hc e0 he0

theorem changed_phase_keys (now : Int) (al : List (Nat × MStatus)) :
    ∀ cur, akeys (changed_phase now al cur).1 = akeys cur := by
  induction al with
  | nil => intro cur; rfl
  | cons e rest ih =>
    intro cur
    rcases e with ⟨i, st⟩
    unfold changed_phase
    split
    · exact ih cur
    · split
      · simp only
        rw [ih (replace_entry cur i ⟨i, st, now⟩), akeys_replace_entry]
      · exact ih cur

theorem changed_phase_frame (now : Int) (al : List (Nat × MStatus)) :
    ∀ cur i, i ∉ akeys al →
      (changed_phase now al cur).1.lookup i = cur.lookup i := by
  induction al with
  | nil => intro cur i _; rfl
  | cons e rest ih =>
    intro cur i hni
    rcases e with ⟨j, st⟩
    rw [akeys_cons] at hni
    have hij : i ≠ j := fun h => hni (h ▸ List.mem_cons_self _ _)
    have hirest : i ∉ akeys rest := fun h => hni (List.mem_cons_of_mem _ h)
    unfold changed_phase
    split
    · exact ih cur i hirest
    · split
      · simp only
        rw [ih (replace_entry cur j ⟨j, st, now⟩) i hirest,
          lookup_replace_entry_ne cur j i _ hij]
      · exact ih cur i hirest

theorem changed_phase_events (now : Int) (al : List (Nat × MStatus)) :
    ∀ cur ev, ev ∈ (changed_phase now al cur).2 →
      ev.isChanged = true ∧ ev.evid ∈ akeys al ∧ ev.evid ∈ akeys cur := by
  induction al with
  | nil =>
    intro cur ev hev
    simp [changed_phase] at hev
  | cons e rest ih =>
    intro cur ev hev
    rcases e with ⟨i, st⟩
    rw [akeys_cons]
    unfold changed_phase at hev
    split at hev
    · obtain ⟨h1, h2, h3⟩ := ih cur ev hev
      exact ⟨h1, List.mem_cons_of_mem _ h2, h3⟩
    · next known heq0 =>
      split at hev
      · simp only [List.mem_cons] at hev
        rcases hev with rfl | hev
        · refine ⟨rfl, ?_, ?_⟩
          · show i ∈ i :: akeys rest
            exact List.mem_cons_self _ _
          · show i ∈ akeys cur
            exact (lookup_isSome_mem cur i).mp (by simp [heq0])
        · obtain ⟨h1, h2, h3⟩ := ih (replace_entry cur i ⟨i, st, now⟩) ev hev
          rw [akeys_replace_entry] at h3
          exact ⟨h1, List.mem_cons_of_mem _ h2, h3⟩
      · obtain ⟨h1, h2, h3⟩ := ih cur ev hev
        exact ⟨h1, List.mem_cons_of_mem _ h2, h3⟩

theorem changed_phase_keys_consistent (now : Int) (al : List (Nat × MStatus)) :
    ∀ cur, keys_consistent cur → keys_consistent (changed_phase now al cur).1 := by
  induction al with
  | nil => intro cur hc; exact hc
  | cons e rest ih =>
    intro cur hc
    rcases e with ⟨i, st⟩
    unfold changed_phase
    split
    · exact ih cur hc
    · split
      · simp only
        exact ih _ (replace_entry_keys_consistent cur i ⟨i, st, now⟩ hc rfl)
      · exact ih cur hc

theorem changed_phase_noop (now : Int) (al : List (Nat × MStatus)) :
    ∀ cur, (∀ e ∈ al, ∀ known, cur.lookup e.1 = some known →
        e.2.active_alarm = known.monitor.active_alarm) →
      changed_phase now al cur = (cur, []) := by
  induction al with
  | nil => intro cur _; rfl
  | cons e rest ih =>
    intro cur hyp
    rcases e with ⟨i, st⟩
    unfold changed_phase
    split
    · exact ih cur (fun e he => hyp e (List.mem_cons_of_mem _ he))
    · next known heq0 =>
      have heqv : st.active_alarm = known.monitor.active_alarm :=
        hyp (i, st) (List.mem_cons_self _ _) known heq0
      rw [if_neg (by simp [heqv])]
      exact ih cur (fun e he => hyp e (List.mem_cons_of_mem _ he))

theorem changed_phase_lookup (now : Int) (al : List (Nat × MStatus)) :
    ∀ cur i st, (akeys al).Nodup → (i, st) ∈ al →
      (changed_phase now al cur).1.lookup i
        = match cur.lookup i with
          | none => none
          | some known =>
            if st.active_alarm ≠ known.monitor.active_alarm then some ⟨i, st, now⟩
            else some known := by
  induction al with
  | nil =>
    intro cur i st _ hmem
    simp at hmem
  | cons e rest ih =>
    intro cur i st hnd hmem
    rcases e with ⟨j, stj⟩
    rw [akeys_cons] at hnd
    have hnd2 : (akeys rest).Nodup := (List.nodup_cons.mp hnd).2
    have hjrest : j ∉ akeys rest := (List.nodup_cons.mp hnd).1
    rcases List.mem_cons.mp hmem with heqp | hrest
    · injection heqp with hji hstj
      subst hji
      subst hstj
      unfold changed_phase
      split
      · next heq0 =>
        rw [changed_phase_frame now rest cur i hjrest, heq0]
      · next known heq0 =>
        split
        · next hne =>
          simp only
          rw [changed_phase_frame now rest _ i hjrest,
            lookup_replace_entry_self cur i _ (by simp [heq0])]
        · next hne =>
          rw [changed_phase_frame now rest cur i hjrest]
          simp only [heq0]
    · have hij : i ≠ j := by
        intro h
        subst h
        exact hjrest (List.mem_map_of_mem Prod.fst hrest)
      unfold changed_phase
      split
      · exact ih cur i st hnd2 hrest
      · next known heq0 =>
        split
        · simp only
          rw [ih (replace_entry cur j ⟨j, stj, now⟩) i st hnd2 hrest,
            lookup_replace_entry_ne cur j i _ hij]
        · exact ih cur i st hnd2 hrest

theorem akeys_append {β : Type} (l1 l2 : List (Nat × β)) :
    akeys (l1 ++ l2) = akeys l1 ++ akeys l2 := by
  simp [akeys]

theorem mem_nodup_lookup {β : Type} (l : List (Nat × β))
    (hnd : (akeys l).Nodup) (i : Nat) (v : β) (hm : (i, v) ∈ l) :
    l.lookup i = some v := by
  induction l with
  | nil => simp at hm
  | cons e t ih =>
    rcases e with ⟨j, w⟩
    rw [akeys_cons] at hnd
    rw [lookup_cons]
    rcases List.mem_cons.mp hm with heqp | hmt
    · injection heqp with h1 h2
      subst h1
      subst h2
      rw [if_pos rfl]
    · by_cases h : i = j
      · subst h
        exact absurd (List.mem_map_of_mem Prod.fst hmt) (List.nodup_cons.mp hnd).1
      · rw [if_neg h]
        exact ih (List.nodup_cons.mp hnd).2 hmt

theorem started_phase_events (now : Int) (al : List (Nat × MStatus)) :
    ∀ cur ev, ev ∈ (started_phase now al cur).2 →
      ev.isStarted = true ∧ ev.evid ∈ akeys al ∧ cur.lookup ev.evid = none := by
  induction al with
  | nil =>
    intro cur ev hev
    simp [started_phase] at hev
  | cons hd rest ih =>
    intro cur ev hev
    rcases hd with ⟨i, st⟩
    rw [akeys_cons]
    unfold started_phase at hev
    split at hev
    · obtain ⟨h1, h2, h3⟩ := ih cur ev hev
      exact ⟨h1, List.mem_cons_of_mem _ h2, h3⟩
    · next heq0 =>
      simp only [List.mem_cons] at hev
      rcases hev with rfl | hev
      · exact ⟨rfl, List.mem_cons_self _ _, heq0⟩
      · obtain ⟨h1, h2, h3⟩ := ih (cur ++ [(i, ⟨i, st, now⟩)]) ev hev
        rw [lookup_append_single] at h3
        have hnone : cur.lookup ev.evid = none := by
          cases hcl : cur.lookup ev.evid with
          | none => rfl
          | some w =>
            rw [hcl] at h3
            simp at h3
        exact ⟨h1, List.mem_cons_of_mem _ h2, hnone⟩

theorem started_phase_lookup_mono (now : Int) (al : List (Nat × MStatus)) :
    ∀ cur k, (cur.lookup k).isSome = true →
      (((started_phase now al cur).1).lookup k).isSome = true := by
  induction al with
  | nil => intro cur k h; exact h
  | cons hd rest ih =>
    intro cur k h
    rcases hd with ⟨i, st⟩
    unfold started_phase
    split
    · exact ih cur k h
    · simp only
      apply ih
      rw [lookup_append_single]
      rcases Option.isSome_iff_exists.mp h with ⟨v, hv⟩
      simp [hv]

theorem started_phase_all_present (now : Int) (al : List (Nat × MStatus)) :
    ∀ cur, ∀ e ∈ al, (((started_phase now al cur).1).lookup e.1).isSome = true := by
  induction al with
  | nil =>
    intro cur e he
    simp at he
  | cons hd rest ih =>
    intro cur e he
    rcases hd with ⟨i, st⟩
    rcases List.mem_cons.mp he with rfl | hrest
    · unfold started_phase
      split
      · next v heq0 =>
        exact started_phase_lookup_mono now rest cur i (by simp [heq0])
      · next heq0 =>
        simp only
        apply started_phase_lookup_mono
        rw [lookup_append_single, heq0]
        simp
    · unfold started_phase
      split
      · exact ih cur e hrest
      · simp only
        exact ih _ e hrest

theorem started_phase_keys_sub (now : Int) (al : List (Nat × MStatus)) :
    ∀ cur k, k ∈ akeys (started_phase now al cur).1 →
      k ∈ akeys cur ∨ k ∈ akeys al := by
  induction al with
  | nil =>
    intro cur k h
    exact Or.inl h
  | cons hd rest ih =>
    intro cur k h
    rcases hd with ⟨i, st⟩
    rw [akeys_cons]
    unfold started_phase at h
    split at h
    · rcases ih cur k h with h1 | h1
      · exact Or.inl h1
      · exact Or.inr (List.mem_cons_of_mem _ h1)
    · simp only at h
      rcases ih _ k h with h1 | h1
      · rw [akeys_append] at h1
        rcases List.mem_append.mp h1 with h2 | h2
        · exact Or.inl h2
        · simp [akeys] at h2
          subst h2
          exact Or.inr (List.mem_cons_self _ _)
      · exact Or.inr (List.mem_cons_of_mem _ h1)

theorem started_phase_keys_consistent (now : Int) (al : List (Nat × MStatus)) :
    ∀ cur, keys_consistent cur → keys_consistent (started_phase now al cur).1 := by
  induction al with
  | nil => intro cur hc; exact hc
  | cons hd rest ih =>
    intro cur hc
    rcases hd with ⟨i, st⟩
    unfold started_phase
    split
    · exact ih cur hc
    · simp only
      apply ih
      intro e he
      rcases List.mem_append.mp he with h1 | h1
      · exact hc e h1
      · rw [List.mem_singleton] at h1
        subst h1
        rfl

theorem started_phase_lookup_or (now : Int) (al : List (Nat × MStatus)) :
    ∀ cur k, ((started_phase now al cur).1).lookup k = cur.lookup k ∨
      ∃ st, (k, st) ∈ al ∧
        ((started_phase now al cur).1).lookup k = some ⟨k, st, now⟩ := by
  induction al with
  | nil => intro cur k; exact Or.inl rfl
  | cons hd rest ih =>
    intro cur k
    rcases hd with ⟨i, st⟩
    unfold started_phase
    split
    · rcases ih cur k with h | ⟨st2, hm, he⟩
      · exact Or.inl h
      · exact Or.inr ⟨st2, List.mem_cons_of_mem _ hm, he⟩
    · next heq0 =>
      simp only
      rcases ih (cur ++ [(i, ⟨i, st, now⟩)]) k with h | ⟨st2, hm, he⟩
      · rw [lookup_append_single] at h
        by_cases hk : k = i
        · subst hk
          rw [heq0] at h
          simp at h
          exact Or.inr ⟨st, List.mem_cons_self _ _, h⟩
        · rw [if_neg hk] at h
          simp at h
          exact Or.inl h
      · exact Or.inr ⟨st2, List.mem_cons_of_mem _ hm, he⟩

theorem started_phase_noop (now : Int) (al : List (Nat × MStatus)) :
    ∀ cur, (∀ e ∈ al, (cur.lookup e.1).isSome = true) →
      started_phase now al cur = (cur, []) := by
  induction al with
  | nil => intro cur _; rfl
  | cons hd rest ih =>
    intro cur hyp
    rcases hd with ⟨i, st⟩
    unfold started_phase
    split
    · exact ih cur (fun e he => hyp e (List.mem_cons_of_mem _ he))
    · next heq0 =>
      have hs := hyp (i, st) (List.mem_cons_self _ _)
      rw [heq0] at hs
      simp at hs

theorem reminder_step_monitor (now : Int) (info : AlarmInfo) :
    (reminder_step now info).1.monitor = info.monitor ∧
      (reminder_step now info).1.id = info.id := by
  unfold reminder_step
  split
  · exact ⟨rfl, rfl⟩
  · split
    · exact ⟨rfl, rfl⟩
    · split
      · exact ⟨rfl, rfl⟩
      · exact ⟨rfl, rfl⟩

theorem reminder_step_event_id (now : Int) (info : AlarmInfo) (ev : AEvent)
    (h : (reminder_step now info).2 = some ev) :
    ev.isReminder = true ∧ ev.evid = info.id := by
  revert h
  unfold reminder_step
  split
  · intro h; simp at h
  · split
    · intro h; simp at h
    · split
      · intro h
        simp only at h
        injection h with h
        subst h
        exact ⟨rfl, rfl⟩
      · intro h; simp at h

theorem lookup_map_snd (f : AlarmInfo → AlarmInfo)
    (cur : List (Nat × AlarmInfo)) (k : Nat) :
    (cur.map (fun e => (e.1, f e.2))).lookup k = (cur.lookup k).map f := by
  induction cur with
  | nil => rfl
  | cons e t ih =>
    rcases e with ⟨j, v⟩
    simp only [List.map_cons]
    rw [lookup_cons, lookup_cons]
    by_cases h : k = j
    · rw [if_pos h, if_pos h]
      rfl
    · rw [if_neg h, if_neg h]
      exact ih

theorem akeys_map_snd (f : AlarmInfo → AlarmInfo) (cur : List (Nat × AlarmInfo)) :
    akeys (cur.map (fun e => (e.1, f e.2))) = akeys cur := by
  simp [akeys, List.map_map]

theorem reminder_phase_lookup (now : Int) (cur : List (Nat × AlarmInfo)) (k : Nat) :
    ((reminder_phase now cur).1).lookup k
      = (cur.lookup k).map (fun info => (reminder_step now info).1) :=
  lookup_map_snd (fun info => (reminder_step now info).1) cur k

theorem reminder_phase_keys (now : Int) (cur : List (Nat × AlarmInfo)) :
    akeys (reminder_phase now cur).1 = akeys cur :=
  akeys_map_snd (fun info => (reminder_step now info).1) cur

theorem reminder_phase_keys_consistent (now : Int) (cur : List (Nat × AlarmInfo))
    (hc : keys_consistent cur) : keys_consistent (reminder_phase now cur).1 := by
  intro e he
  unfold reminder_phase at he
  rcases List.mem_map.mp he with ⟨e0, he0, heqp⟩
  rw [← heqp]
  show (reminder_step now e0.2).1.id = e0.1
  rw [(reminder_step_monitor now e0.2).2]
  exact hc e0 he0

theorem reminder_phase_events (now : Int) (cur : List (Nat × AlarmInfo)) :
    ∀ ev ∈ (reminder_phase now cur).2, ev.isReminder = true ∧
      ∃ e ∈ cur, (reminder_step now e.2).2 = some ev := by
  intro ev hev
  unfold reminder_phase at hev
  rcases List.mem_filterMap.mp hev with ⟨e, he, hes⟩
  exact ⟨(reminder_step_event_id now e.2 ev hes).1, e, he, hes⟩

theorem reminder_phase_noop (now : Int) (cur : List (Nat × AlarmInfo))
    (h : ∀ e ∈ cur, reminder_step now e.2 = (e.2, none)) :
    reminder_phase now cur = (cur, []) := by
  unfold reminder_phase
  have h1 : cur.map (fun e => (e.1, (reminder_step now e.2).1)) = cur := by
    induction cur with
    | nil => rfl
    | cons e t ih =>
      rw [List.map_cons, h e (List.mem_cons_self _ _),
        ih (fun e2 he2 => h e2 (List.mem_cons_of_mem _ he2))]
  have h2 : cur.filterMap (fun e => (reminder_step now e.2).2) = [] := by
    rw [List.filterMap_eq_nil_iff]
    intro e he
    rw [h e he]
  rw [h1, h2]

theorem ended_phase_fst_mem (al : List (Nat × MStatus))
    (cur : List (Nat × AlarmInfo)) :
    ∀ e ∈ (ended_phase al cur).1, e ∈ cur ∧ (al.lookup e.1).isSome = true := by
  intro e he
  unfold ended_phase at he
  exact ⟨(List.mem_filter.mp he).1, (List.mem_filter.mp he).2⟩

theorem ended_phase_keys_lookup (al : List (Nat × MStatus))
    (cur : List (Nat × AlarmInfo)) :
    ∀ k ∈ akeys (ended_phase al cur).1, (al.lookup k).isSome = true := by
  intro k hk
  unfold akeys ended_phase at hk
  rcases List.mem_map.mp hk with ⟨e, he, heqp⟩
  rw [← heqp]
  exact (List.mem_filter.mp he).2

theorem ended_phase_events (al : List (Nat × MStatus))
    (cur : List (Nat × AlarmInfo)) :
    ∀ ev ∈ (ended_phase al cur).2, ev.isEnded = true ∧
      ∃ e ∈ cur, ev = .ended e.2 ∧ al.lookup e.1 = none := by
  intro ev hev
  unfold ended_phase at hev
  rcases List.mem_map.mp hev with ⟨e, he, heqp⟩
  have hm := List.mem_filter.mp he
  have hnone : al.lookup e.1 = none := by
    have hb := hm.2
    cases h0 : al.lookup e.1 with
    | none => rfl
    | some v =>
      rw [h0] at hb
      simp at hb
  exact ⟨heqp ▸ rfl, e, hm.1, heqp.symm, hnone⟩

theorem ended_phase_noop (al : List (Nat × MStatus))
    (cur : List (Nat × AlarmInfo))
    (h : ∀ e ∈ cur, (al.lookup e.1).isSome = true) :
    ended_phase al cur = (cur, []) := by
  unfold ended_phase
  rw [List.filter_eq_self.mpr h]
  have h2 : cur.filter (fun e => !(al.lookup e.1).isSome) = [] := by
    rw [List.filter_eq_nil_iff]
    intro e he
    simp [h e he]
  rw [h2]
  rfl

theorem ended_phase_keys_consistent (al : List (Nat × MStatus))
    (cur : List (Nat × AlarmInfo)) (hc : keys_consistent cur) :
    keys_consistent (ended_phase al cur).1 :=
  fun e he => hc e (List.mem_filter.mp he).1

theorem akeys_alarmed_sublist (statuses : List (Nat × MStatus)) :
    (akeys (alarmed_of statuses)).Sublist (akeys statuses) := by
  induction statuses with
  | nil => exact List.Sublist.refl _
  | cons e t ih =>
    rcases e with ⟨j, v⟩
    unfold alarmed_of
    rw [List.filterMap_cons]
    split
    · next heq0 =>
      rw [akeys_cons]
      exact List.Sublist.cons j ih
    · next val heq0 =>
      by_cases h : v.active_alarm.isSome
      · rw [if_pos h] at heq0
        injection heq0 with heq0
        subst heq0
        rw [akeys_cons, akeys_cons]
        exact List.Sublist.cons₂ j ih
      · rw [if_neg h] at heq0
        exact absurd heq0 (by simp)

theorem alarmed_nodup (statuses : List (Nat × MStatus))
    (h : (akeys statuses).Nodup) : (akeys (alarmed_of statuses)).Nodup :=
  (akeys_alarmed_sublist statuses).nodup h

theorem alarmer_run_def (now : Int) (statuses : List (Nat × MStatus))
    (cur : List (Nat × AlarmInfo)) :
    alarmer_run now statuses cur
      = ((reminder_phase now (started_phase now (alarmed_of statuses)
            (changed_phase now (alarmed_of statuses)
              (ended_phase (alarmed_of statuses) cur).1).1).1).1,
         (ended_phase (alarmed_of statuses) cur).2
           ++ (changed_phase now (alarmed_of statuses)
                (ended_phase (alarmed_of statuses) cur).1).2
           ++ (started_phase now (alarmed_of statuses)
                (changed_phase now (alarmed_of statuses)
                  (ended_phase (alarmed_of statuses) cur).1).1).2
           ++ (reminder_phase now (started_phase now (alarmed_of statuses)
                (changed_phase now (alarmed_of statuses)
                  (ended_phase (alarmed_of statuses) cur).1).1).1).2) := rfl

/-! ## Claim C5: phase order and conflict freedom of one Alarmer.run pass -/

theorem AEvent_kind_unique (ev : AEvent) :
    (ev.isEnded = true → ev.isChanged = false ∧ ev.isStarted = false ∧
      ev.isReminder = false) ∧
    (ev.isChanged = true → ev.isEnded = false ∧ ev.isStarted = false ∧
      ev.isReminder = false) ∧
    (ev.isStarted = true → ev.isEnded = false ∧ ev.isChanged = false ∧
      ev.isReminder = false) ∧
    (ev.isReminder = true → ev.isEnded = false ∧ ev.isChanged = false ∧
      ev.isStarted = false) := by
  cases ev <;>
    simp [AEvent.isEnded, AEvent.isChanged, AEvent.isStarted, AEvent.isReminder]

/-- C5: one pass of Alarmer.run executes ended-detection, then
changed-detection, then started-detection, then reminders: the emitted event
list is the concatenation of four kind-pure segments in that order; ended
events concern identities outside the alarmed set while changed, started and
reminder events concern identities inside it; consequently no identity
receives two conflicting events in one pass: an identity with an ended event
receives no other event, and no identity receives both a changed and a started
event. -/
theorem alarmer_run_phase_order (now : Int) (statuses : List (Nat × MStatus))
    (cur : List (Nat × AlarmInfo)) (hc : keys_consistent cur) :
    ∃ e1 e2 e3 e4,
      (alarmer_run now statuses cur).2 = e1 ++ e2 ++ e3 ++ e4 ∧
      (∀ ev ∈ e1, ev.isEnded = true ∧
        (alarmed_of statuses).lookup ev.evid = none) ∧
      (∀ ev ∈ e2, ev.isChanged = true ∧
        ((alarmed_of statuses).lookup ev.evid).isSome = true) ∧
      (∀ ev ∈ e3, ev.isStarted = true ∧
        ((alarmed_of statuses).lookup ev.evid).isSome = true) ∧
      (∀ ev ∈ e4, ev.isReminder = true ∧
        ((alarmed_of statuses).lookup ev.evid).isSome = true) ∧
      (∀ i : Nat,
        (∃ ev ∈ (alarmer_run now statuses cur).2, ev.isEnded = true ∧ ev.evid = i) →
        ¬ ∃ ev ∈ (alarmer_run now statuses cur).2, ev.isEnded = false ∧ ev.evid = i) ∧
      (∀ i : Nat,
        (∃ ev ∈ (alarmer_run now statuses cur).2, ev.isChanged = true ∧ ev.evid = i) →
        ¬ ∃ ev ∈ (alarmer_run now statuses cur).2, ev.isStarted = true ∧ ev.evid = i) := by
  set al := alarmed_of statuses with hal
  set cur1 := (ended_phase al cur).1 with hcur1
  set cur2 := (changed_phase now al cur1).1 with hcur2
  set cur3 := (started_phase now al cur2).1 with hcur3
  have hc1 : keys_consistent cur1 := ended_phase_keys_consistent al cur hc
  have hc2 : keys_consistent cur2 := changed_phase_keys_consistent now al cur1 hc1
  have hc3 : keys_consistent cur3 := started_phase_keys_consistent now al cur2 hc2
  have htot : (alarmer_run now statuses cur).2
      = (ended_phase al cur).2 ++ (changed_phase now al cur1).2
        ++ (started_phase now al cur2).2 ++ (reminder_phase now cur3).2 := by
    rw [alarmer_run_def]
  have hE1 : ∀ ev ∈ (ended_phase al cur).2, ev.isEnded = true ∧
      al.lookup ev.evid = none := by
    intro ev hev
    obtain ⟨hend, e, he, heqv, hnone⟩ := ended_phase_events al cur ev hev
    refine ⟨hend, ?_⟩
    have hid : ev.evid = e.1 := by
      rw [heqv]
      exact hc e he
    rw [hid]
    exact hnone
  have hE2 : ∀ ev ∈ (changed_phase now al cur1).2, ev.isChanged = true ∧
      (al.lookup ev.evid).isSome = true := by
    intro ev hev
    obtain ⟨hch, hmal, _⟩ := changed_phase_events now al cur1 ev hev
    exact ⟨hch, (lookup_isSome_mem al ev.evid).mpr hmal⟩
  have hE3 : ∀ ev ∈ (started_phase now al cur2).2, ev.isStarted = true ∧
      (al.lookup ev.evid).isSome = true := by
    intro ev hev
    obtain ⟨hst, hmal, _⟩ := started_phase_events now al cur2 ev hev
    exact ⟨hst, (lookup_isSome_mem al ev.evid).mpr hmal⟩
  have hkey3 : ∀ k ∈ akeys cur3, (al.lookup k).isSome = true := by
    intro k hk
    rcases started_phase_keys_sub now al cur2 k hk with h1 | h1
    · rw [hcur2, changed_phase_keys now al cur1] at h1
      exact ended_phase_keys_lookup al cur k h1
    · exact (lookup_isSome_mem al k).mpr h1
  have hE4 : ∀ ev ∈ (reminder_phase now cur3).2, ev.isReminder = true ∧
      (al.lookup ev.evid).isSome = true := by
    intro ev hev
    obtain ⟨hrm, e, he, hstep⟩ := reminder_phase_events now cur3 ev hev
    refine ⟨hrm, ?_⟩
    have hid : ev.evid = e.1 := by
      rw [(reminder_step_event_id now e.2 ev hstep).2]
      exact hc3 e he
    rw [hid]
    exact hkey3 e.1 (List.mem_map_of_mem Prod.fst he)
  have hkinds : ∀ ev ∈ (alarmer_run now statuses cur).2,
      (ev.isEnded = true → al.lookup ev.evid = none) ∧
      (ev.isEnded = false → (al.lookup ev.evid).isSome = true) ∧
      (ev.isChanged = true → ev.evid ∈ akeys cur1) ∧
      (ev.isStarted = true → cur2.lookup ev.evid = none) := by
    intro ev hev
    rw [htot] at hev
    rcases List.mem_append.mp hev with hev | hev4
    · rcases List.mem_append.mp hev with hev | hev3
      · rcases List.mem_append.mp hev with hev1 | hev2
        · obtain ⟨h1, h2⟩ := hE1 ev hev1
          have hu := (AEvent_kind_unique ev).1 h1
          refine ⟨fun _ => h2, fun hfalse => ?_, fun hch => ?_, fun hst => ?_⟩
          · rw [h1] at hfalse
            simp at hfalse
          · rw [hu.1] at hch
            simp at hch
          · rw [hu.2.1] at hst
            simp at hst
        · obtain ⟨h1, h2⟩ := hE2 ev hev2
          obtain ⟨_, _, h3⟩ := changed_phase_events now al cur1 ev hev2
          have hu := (AEvent_kind_unique ev).2.1 h1
          refine ⟨fun hend => ?_, fun _ => h2, fun _ => h3, fun hst => ?_⟩
          · rw [hu.1] at hend
            simp at hend
          · rw [hu.2.1] at hst
            simp at hst
      · obtain ⟨h1, h2⟩ := hE3 ev hev3
        obtain ⟨_, _, h3⟩ := started_phase_events now al cur2 ev hev3
        have hu := (AEvent_kind_unique ev).2.2.1 h1
        refine ⟨fun hend => ?_, fun _ => h2, fun hch => ?_, fun _ => h3⟩
        · rw [hu.1] at hend
          simp at hend
        · rw [hu.2.1] at hch
          simp at hch
    · obtain ⟨h1, h2⟩ := hE4 ev hev4
      have hu := (AEvent_kind_unique ev).2.2.2 h1
      refine ⟨fun hend => ?_, fun _ => h2, fun hch => ?_, fun hst => ?_⟩
      · rw [hu.1] at hend
        simp at hend
      · rw [hu.2.1] at hch
        simp at hch
      · rw [hu.2.2] at hst
        simp at hst
  refine ⟨(ended_phase al cur).2, (changed_phase now al cur1).2,
    (started_phase now al cur2).2, (reminder_phase now cur3).2,
    htot, hE1, hE2, hE3, hE4, ?_, ?_⟩
  · rintro i ⟨ev, hev, hend, hid⟩ ⟨ev2, hev2, hnend, hid2⟩
    have h1 := (hkinds ev hev).1 hend
    have h2 := (hkinds ev2 hev2).2.1 hnend
    rw [hid] at h1
    rw [hid2] at h2
    rw [h1] at h2
    exact absurd h2 (by simp)
  · rintro i ⟨ev, hev, hch, hid⟩ ⟨ev2, hev2, hst, hid2⟩
    have h1 := (hkinds ev hev).2.2.1 hch
    have h2 := (hkinds ev2 hev2).2.2.2 hst
    rw [hid] at h1
    rw [hid2] at h2
    have hmem2 : i ∈ akeys cur2 := by
      rw [hcur2, changed_phase_keys now al cur1]
      exact h1
    have hsome2 := (lookup_isSome_mem cur2 i).mpr hmem2
    rw [h2] at hsome2
    exact absurd hsome2 (by simp)

def c5_rule : AlarmConfig := ⟨"c5r", 1, 5, .OVER, none⟩

def c5_cur : List (Nat × AlarmInfo) :=
  [(7, ⟨7, ⟨7, "x", "X", [], "u", [], some c5_rule⟩, 0⟩)]

def c5_statuses : List (Nat × MStatus) :=
  [(8, ⟨8, "y", "Y", [], "u", [], some c5_rule⟩)]

/-- Witness for C5: a pass over a tracker that remembers monitor 7 while only
monitor 8 is alarmed, so monitor 7 ends and monitor 8 starts in the same pass
without conflicts. -/
theorem alarmer_run_phase_order_witness :
    keys_consistent c5_cur ∧
      (∃ e1 e2 e3 e4,
        (alarmer_run 3 c5_statuses c5_cur).2 = e1 ++ e2 ++ e3 ++ e4 ∧
        (∀ ev ∈ e1, ev.isEnded = true ∧
          (alarmed_of c5_statuses).lookup ev.evid = none) ∧
        (∀ ev ∈ e2, ev.isChanged = true ∧
          ((alarmed_of c5_statuses).lookup ev.evid).isSome = true) ∧
        (∀ ev ∈ e3, ev.isStarted = true ∧
          ((alarmed_of c5_statuses).lookup ev.evid).isSome = true) ∧
        (∀ ev ∈ e4, ev.isReminder = true ∧
          ((alarmed_of c5_statuses).lookup ev.evid).isSome = true) ∧
        (∀ i : Nat,
          (∃ ev ∈ (alarmer_run 3 c5_statuses c5_cur).2,
            ev.isEnded = true ∧ ev.evid = i) →
          ¬ ∃ ev ∈ (alarmer_run 3 c5_statuses c5_cur).2,
            ev.isEnded = false ∧ ev.evid = i) ∧
        (∀ i : Nat,
          (∃ ev ∈ (alarmer_run 3 c5_statuses c5_cur).2,
            ev.isChanged = true ∧ ev.evid = i) →
          ¬ ∃ ev ∈ (alarmer_run 3 c5_statuses c5_cur).2,
            ev.isStarted = true ∧ ev.evid = i)) :=
  ⟨fun e he => by
      simp only [c5_cur, List.mem_singleton] at he
      subst he
      rfl,
   alarmer_run_phase_order 3 c5_statuses c5_cur (fun e he => by
      simp only [c5_cur, List.mem_singleton] at he
      subst he
      rfl)⟩

/-! ## Claim C6: idempotence of Alarmer.run on an unchanged snapshot set -/

def c6_alarm : AlarmConfig := ⟨"c6", 1, 2, .OVER, some 1⟩

def c6_statuses : List (Nat × MStatus) :=
  [(0, ⟨0, "m", "Mon", [], "u", [], some c6_alarm⟩)]

/-- Counterexample for C6 as stated: with one alarmed monitor whose rule has
reminder interval 1, a first pass at time 0 starts tracking it with
last-notified 0; a second pass with the same snapshot set at time 10 fires a
reminder and updates last-notified to 10, so the tracked mapping after the
second call differs from the mapping after the first, although the claim
asserts they are equal unconditionally. -/
theorem alarmer_run_idempotent_counterexample :
    (alarmer_run 10 c6_statuses (alarmer_run 0 c6_statuses []).1).1
      ≠ (alarmer_run 0 c6_statuses []).1 := by
  decide

/-- C6 (amended): calling Alarmer.run twice with the same snapshot set (dict
keys deduplicated, as Python dicts are) emits from the second call no
started, changed or ended events — only reminders are possible; and when
additionally no tracked rule's reminder interval has elapsed since
last-notified, the second call emits no events at all and leaves the tracked
mapping exactly as the first call left it.  (As stated the claim also asserted
the mapping unchanged even when a reminder fires; the counterexample shows the
reminder resets last-notified.) -/
theorem alarmer_run_idempotent (now1 now2 : Int)
    (statuses : List (Nat × MStatus)) (S0 : List (Nat × AlarmInfo))
    (hnd : (akeys statuses).Nodup) :
    (∀ ev ∈ (alarmer_run now2 statuses (alarmer_run now1 statuses S0).1).2,
      ev.isReminder = true) ∧
    ((∀ e ∈ (alarmer_run now1 statuses S0).1, ∀ a age,
        e.2.monitor.active_alarm = some a → a.reminder_age = some age →
        ¬(age < now2 - e.2.last_alert)) →
      alarmer_run now2 statuses (alarmer_run now1 statuses S0).1
        = ((alarmer_run now1 statuses S0).1, [])) := by
  set al := alarmed_of statuses with hal
  have halnd : (akeys al).Nodup := alarmed_nodup statuses hnd
  set cur1 := (ended_phase al S0).1 with hcur1
  set cur2 := (changed_phase now1 al cur1).1 with hcur2
  set cur3 := (started_phase now1 al cur2).1 with hcur3
  set S1 := (alarmer_run now1 statuses S0).1 with hS1
  have hS1r : S1 = (reminder_phase now1 cur3).1 := by
    rw [hS1, alarmer_run_def]
  have hP1a : ∀ k ∈ akeys S1, (al.lookup k).isSome = true := by
    intro k hk
    rw [hS1r, reminder_phase_keys] at hk
    rcases started_phase_keys_sub now1 al cur2 k hk with h1 | h1
    · rw [hcur2, changed_phase_keys now1 al cur1] at h1
      exact ended_phase_keys_lookup al S0 k h1
    · exact (lookup_isSome_mem al k).mpr h1
  have hP1b : ∀ e ∈ al, (S1.lookup e.1).isSome = true := by
    intro e he
    rw [hS1r, reminder_phase_lookup]
    have := started_phase_all_present now1 al cur2 e he
    rcases Option.isSome_iff_exists.mp this with ⟨v, hv⟩
    rw [hv]
    rfl
  have hP2 : ∀ e ∈ al, ∀ known, S1.lookup e.1 = some known →
      e.2.active_alarm = known.monitor.active_alarm := by
    rintro ⟨i, st⟩ he known hk
    rw [hS1r, reminder_phase_lookup] at hk
    cases hk3 : cur3.lookup i with
    | none =>
      rw [hk3] at hk
      simp at hk
    | some k3 =>
      rw [hk3] at hk
      rw [Option.map_some'] at hk
      injection hk with hk
      have hmon : known.monitor = k3.monitor := by
        rw [← hk]
        exact (reminder_step_monitor now1 k3).1
      rw [hmon]
      rcases started_phase_lookup_or now1 al cur2 i with hor | ⟨st2, hm2, heq2⟩
      · rw [hk3] at hor
        rw [hcur2, changed_phase_lookup now1 al cur1 i st halnd he] at hor
        cases hcl : cur1.lookup i with
        | none =>
          rw [hcl] at hor
          simp at hor
        | some known1 =>
          rw [hcl] at hor
          simp only at hor
          by_cases hne : st.active_alarm ≠ known1.monitor.active_alarm
          · rw [if_pos hne] at hor
            injection hor with hor
            rw [hor]
          · rw [if_neg hne] at hor
            injection hor with hor
            rw [hor]
            exact not_ne_iff.mp hne
      · rw [hk3] at heq2
        injection heq2 with heq2
        have hlook : al.lookup i = some st := mem_nodup_lookup al halnd i st he
        have hlook2 : al.lookup i = some st2 := mem_nodup_lookup al halnd i st2 hm2
        rw [hlook] at hlook2
        injection hlook2 with hlook2
        subst heq2
        subst hlook2
        rfl
  have hend2 : ended_phase al S1 = (S1, []) :=
    ended_phase_noop al S1
      (fun e he => hP1a e.1 (List.mem_map_of_mem Prod.fst he))
  have hchg2 : changed_phase now2 al S1 = (S1, []) :=
    changed_phase_noop now2 al S1 hP2
  have hsta2 : started_phase now2 al S1 = (S1, []) :=
    started_phase_noop now2 al S1 hP1b
  have hrun2 : alarmer_run now2 statuses S1
      = ((reminder_phase now2 S1).1, (reminder_phase now2 S1).2) := by
    rw [alarmer_run_def, ← hal, hend2]
    simp only [hchg2, hsta2, List.nil_append]
  constructor
  · intro ev hev
    rw [hrun2] at hev
    exact (reminder_phase_events now2 S1 ev hev).1
  · intro helapsed
    have hstep : ∀ e ∈ S1, reminder_step now2 e.2 = (e.2, none) := by
      intro e he
      cases hala : e.2.monitor.active_alarm with
      | none => simp [reminder_step, hala]
      | some a =>
        cases hra : a.reminder_age with
        | none => simp [reminder_step, hala, hra]
        | some age => simp [reminder_step, hala, hra, helapsed e he a age hala hra]
    rw [hrun2, reminder_phase_noop now2 S1 hstep]

def c6w_alarm : AlarmConfig := ⟨"c6w", 1, 2, .OVER, none⟩

def c6w_statuses : List (Nat × MStatus) :=
  [(0, ⟨0, "m", "Mon", [], "u", [], some c6w_alarm⟩)]

/-- Witness for C6: with a single alarmed monitor whose rule has no reminder
interval, a second pass at a later time leaves the tracked mapping unchanged
and emits nothing. -/
theorem alarmer_run_idempotent_witness :
    (akeys c6w_statuses).Nodup ∧
      alarmer_run 10 c6w_statuses (alarmer_run 0 c6w_statuses []).1
        = ((alarmer_run 0 c6w_statuses []).1, []) :=
  ⟨by decide,
   (alarmer_run_idempotent 0 10 c6w_statuses [] (by decide)).2 (by
     have hS1 : (alarmer_run 0 c6w_statuses []).1
         = [(0, ⟨0, ⟨0, "m", "Mon", [], "u", [], some c6w_alarm⟩, 0⟩)] := by
       decide
     intro e he a age hala hage
     rw [hS1, List.mem_singleton] at he
     subst he
     simp only at hala
     injection hala with hala
     rw [← hala] at hage
     simp [c6w_alarm] at hage)⟩

end Simpmon
